import Mathlib

/-!
Verification of the `dangerous` byte-parsing core against its specification.

The development shallowly embeds the library's data model.  A borrowed byte
slice is modelled as a `Slice`: a start address (a natural number standing for
the pointer value) together with the byte contents (bytes as naturals < 256).
All span math is address arithmetic on `Slice.start`/`Slice.stop`, exactly as
the source performs pointer-range comparisons via `slice_ptr_range`.
-/

set_option autoImplicit false

/-- A borrowed byte slice: start address plus contents.  `addr` models the
pointer value returned by `slice.as_ptr()`; `data` the pointed-to bytes. -/
structure Slice where
  addr : Nat
  data : List Nat
deriving DecidableEq, Repr

/-- Start address of the slice (the `start` of `slice_ptr_range`). -/
def Slice.start (s : Slice) : Nat := s.addr

/-- One-past-the-end address of the slice (the `end` of `slice_ptr_range`). -/
def Slice.stop (s : Slice) : Nat := s.addr + s.data.length

/-- Modelled from the spec: `util::slice_ptr_range` (src/util.rs is not among
the provided sources).  The address range of a slice, as the pair
(start, one-past-end); comparisons between ranges are plain address
comparisons. -/
def slice_ptr_range (s : Slice) : Nat × Nat := (s.start, s.stop)

/-- Modelled from the spec: `util::is_sub_slice` (src/util.rs is not among the
provided sources).  Per the spec, true iff the child's address range lies
fully within the parent's; empty child ranges are valid and represent a
zero-width position. -/
def is_sub_slice (parent child : Slice) : Bool :=
  decide (parent.start ≤ child.start ∧ child.stop ≤ parent.stop)

/-- The sub-slice `&s[n..]` of a slice: address advances by `n`. -/
def Slice.dropBytes (s : Slice) (n : Nat) : Slice :=
  ⟨s.addr + n, s.data.drop n⟩

/-- The sub-slice `&s[a..b]` of a slice: address advances by `a`,
contents are the bytes from `a` (inclusive) to `b` (exclusive). -/
def Slice.extract (s : Slice) (a b : Nat) : Slice :=
  ⟨s.addr + a, (s.data.drop a).take (b - a)⟩

/-- `Input`: an immutable wrapper around bytes to be processed, with the
bound flag (`bound = true` forecloses retry semantics). -/
structure Input where
  bytes : Slice
  bound : Bool
deriving DecidableEq, Repr

/-- `dangerous::input`: the sole public constructor, wrapping a byte slice
with `bound = false`. -/
def input (bytes : Slice) : Input := ⟨bytes, false⟩

/-- `Input::as_dangerous`: the underlying byte slice. -/
def Input.as_dangerous (i : Input) : Slice := i.bytes

/-- `Input::len`. -/
def Input.len (i : Input) : Nat := i.as_dangerous.data.length

/-- `Input::is_empty`. -/
def Input.is_empty (i : Input) : Bool := i.as_dangerous.data.isEmpty

/-- `Input::is_within`: the parent's byte slice contains that of `self`
in the same section of memory. -/
def Input.is_within (self parent : Input) : Bool :=
  is_sub_slice parent.as_dangerous self.as_dangerous

/-- Core of `Input::span_of` on raw slices: the start/end offsets of `child`
within `parent` (pointer distances), if contained. -/
def sliceSpanOf (child parent : Slice) : Option (Nat × Nat) :=
  if is_sub_slice parent child then
    some (child.start - parent.start, child.stop - parent.start)
  else
    none

/-- `Input::span_of`: the start and end offsets of `self` within `parent`,
or `none` if `self` is not within the parent.  The Rust `Range<usize>` is
modelled as a pair (start, end). -/
def Input.span_of (self parent : Input) : Option (Nat × Nat) :=
  sliceSpanOf self.as_dangerous parent.as_dangerous

/-- `Input::non_empty_span_of`: same as `span_of` but `none` if `self` is
empty. -/
def Input.non_empty_span_of (self parent : Input) : Option (Nat × Nat) :=
  if self.is_empty then none else self.span_of parent

/-- `impl PartialEq for Input`: equality compares the byte contents, not
addresses. -/
def Input.contentEq (a b : Input) : Bool :=
  a.as_dangerous.data == b.as_dangerous.data

theorem extract_length {data : List Nat} {s e : Nat} (h2 : e ≤ data.length) :
    ((data.drop s).take (e - s)).length = e - s := by
  simp [List.length_take, List.length_drop]
  omega

/-- C4: a sub-range slice of any buffer `is_within` the buffer, `span_of`
returns exactly the offsets used to produce the sub-range, and
`non_empty_span_of` agrees with `span_of` for non-empty sub-slices but is
`none` for empty ones. -/
theorem claim_C4 (a : Nat) (data : List Nat) (b1 b2 : Bool) (s e : Nat)
    (h1 : s ≤ e) (h2 : e ≤ data.length) :
    (Input.mk (Slice.extract ⟨a, data⟩ s e) b2).is_within ⟨⟨a, data⟩, b1⟩ = true
    ∧ (Input.mk (Slice.extract ⟨a, data⟩ s e) b2).span_of ⟨⟨a, data⟩, b1⟩ = some (s, e)
    ∧ (s < e →
        (Input.mk (Slice.extract ⟨a, data⟩ s e) b2).non_empty_span_of ⟨⟨a, data⟩, b1⟩
          = some (s, e))
    ∧ (s = e →
        (Input.mk (Slice.extract ⟨a, data⟩ s e) b2).non_empty_span_of ⟨⟨a, data⟩, b1⟩
          = none) := by
  have hlen : ((data.drop s).take (e - s)).length = e - s := extract_length h2
  have hsub : is_sub_slice ⟨a, data⟩ (Slice.extract ⟨a, data⟩ s e) = true := by
    simp only [is_sub_slice, Slice.extract, Slice.start, Slice.stop, hlen, decide_eq_true_eq]
    omega
  have hwithin : (Input.mk (Slice.extract ⟨a, data⟩ s e) b2).is_within ⟨⟨a, data⟩, b1⟩ = true := by
    simpa only [Input.is_within, Input.as_dangerous] using hsub
  have hspan : (Input.mk (Slice.extract ⟨a, data⟩ s e) b2).span_of ⟨⟨a, data⟩, b1⟩
      = some (s, e) := by
    simp only [Input.span_of, sliceSpanOf, Input.as_dangerous, hsub, if_true]
    simp only [Slice.extract, Slice.start, Slice.stop, hlen, Option.some.injEq, Prod.mk.injEq]
    omega
  refine ⟨hwithin, hspan, ?_, ?_⟩
  · intro hlt
    have hne : (Input.mk (Slice.extract ⟨a, data⟩ s e) b2).is_empty = false := by
      simp only [Input.is_empty, Input.as_dangerous, Slice.extract]
      rw [Bool.eq_false_iff]
      intro hemp
      rw [List.isEmpty_iff] at hemp
      rw [hemp] at hlen
      simp at hlen
      omega
    simp only [Input.non_empty_span_of, hne, Bool.false_eq_true, if_false, hspan]
  · intro heq
    have hnil : (data.drop s).take (e - s) = [] := by
      apply List.eq_nil_of_length_eq_zero
      rw [hlen]
      omega
    have hemp : (Input.mk (Slice.extract ⟨a, data⟩ s e) b2).is_empty = true := by
      simp [Input.is_empty, Input.as_dangerous, Slice.extract, hnil]
    simp only [Input.non_empty_span_of, hemp, if_true]

/-- Witness for C4 at a concrete buffer `[1,2,3,4]` and sub-range `1..2`. -/
theorem claim_C4_witness :
    (Input.mk (Slice.extract ⟨0, [1, 2, 3, 4]⟩ 1 2) false).is_within ⟨⟨0, [1, 2, 3, 4]⟩, false⟩ = true
    ∧ (Input.mk (Slice.extract ⟨0, [1, 2, 3, 4]⟩ 1 2) false).span_of ⟨⟨0, [1, 2, 3, 4]⟩, false⟩
        = some (1, 2) := by
  have h := claim_C4 0 [1, 2, 3, 4] false false 1 2 (by decide) (by decide)
  exact ⟨h.1, h.2.1⟩

/-- Counterexample to C5 as stated: two distinct backing buffers with
identical contents occupying disjoint but adjacent address ranges (as two
consecutive allocations can).  The empty slice `&a[3..3]` of the first buffer
has its address exactly at the second buffer's start, and `is_within` (pure
address comparison, with empty ranges counting as zero-width positions)
reports it as within the second buffer, so "a slice of one is never
`is_within` the other" fails for empty boundary slices. -/
theorem claim_C5_cex :
    (Slice.stop ⟨0, [1, 2, 3]⟩ ≤ Slice.start ⟨3, [1, 2, 3]⟩)
    ∧ (Slice.data ⟨0, [1, 2, 3]⟩ = Slice.data ⟨3, [1, 2, 3]⟩)
    ∧ (input (Slice.extract ⟨0, [1, 2, 3]⟩ 3 3)).is_within (input ⟨3, [1, 2, 3]⟩) = true := by
  decide

/-- C5 (amended): for two distinct backing buffers (disjoint address ranges)
with identical byte content, a non-empty slice of one is never `is_within`
the other, while `Input` equality (`PartialEq`, content comparison) holds for
the two buffers, so two `Input`s can be equal yet not contained in one
another.  (Only an empty slice sitting exactly on a shared allocation
boundary can be spuriously contained, per the counterexample.) -/
theorem claim_C5 (a b : Slice) (hcontent : a.data = b.data)
    (hdisj : a.stop ≤ b.start ∨ b.stop ≤ a.start)
    (s e : Nat) (hse : s < e) (hlen : e ≤ a.data.length) :
    (input (Slice.extract a s e)).is_within (input b) = false
    ∧ (a.data ≠ [] →
        Input.contentEq (input a) (input b) = true
        ∧ (input a).is_within (input b) = false
        ∧ (input b).is_within (input a) = false) := by
  have hblen : b.data.length = a.data.length := by rw [hcontent]
  have hextlen : ((a.data.drop s).take (e - s)).length = e - s := extract_length hlen
  constructor
  · simp only [Input.is_within, input, Input.as_dangerous, is_sub_slice, Slice.extract,
      Slice.start, Slice.stop, hextlen, decide_eq_false_iff_not, not_and]
    simp only [Slice.start, Slice.stop] at hdisj
    omega
  · intro hne
    have halen : 0 < a.data.length := List.length_pos.mpr hne
    refine ⟨?_, ?_, ?_⟩
    · simp [Input.contentEq, input, Input.as_dangerous, hcontent]
    · simp only [Input.is_within, input, Input.as_dangerous, is_sub_slice,
        decide_eq_false_iff_not, not_and]
      simp only [Slice.start, Slice.stop] at *
      omega
    · simp only [Input.is_within, input, Input.as_dangerous, is_sub_slice,
        decide_eq_false_iff_not, not_and]
      simp only [Slice.start, Slice.stop] at *
      omega

/-- Witness for C5 (amended) at two concrete one-byte buffers with the same
content at separated addresses. -/
theorem claim_C5_witness :
    (input (Slice.extract ⟨0, [7]⟩ 0 1)).is_within (input ⟨10, [7]⟩) = false
    ∧ Input.contentEq (input ⟨0, [7]⟩) (input ⟨10, [7]⟩) = true := by
  have h := claim_C5 ⟨0, [7]⟩ ⟨10, [7]⟩ rfl (by left; decide) 0 1 (by decide) (by decide)
  exact ⟨h.1, (h.2 (by decide)).1⟩

/-- Result of `core::str::from_utf8`, carrying the fields of
`core::str::Utf8Error`: `valid_up_to` (length of the valid prefix) and
`error_len` (`none` when the end of input was reached mid code point,
`some k` when `k` bytes form a structurally invalid sequence). -/
inductive Utf8Result where
  | ok : Utf8Result
  | err (valid_up_to : Nat) (error_len : Option Nat) : Utf8Result
deriving DecidableEq, Repr

/-- Continuation byte test: `0x80..=0xBF`. -/
def isUtf8Cont (b : Nat) : Bool := decide (0x80 ≤ b ∧ b < 0xC0)

/-- Valid second byte of a three-byte sequence, per the UTF-8 table used by
`core::str::from_utf8` (`0xE0` narrows to `0xA0..=0xBF`, `0xED` to
`0x80..=0x9F`). -/
def utf8Valid3Second (b c : Nat) : Bool :=
  if b = 0xE0 then decide (0xA0 ≤ c ∧ c ≤ 0xBF)
  else if b = 0xED then decide (0x80 ≤ c ∧ c ≤ 0x9F)
  else isUtf8Cont c

/-- Valid second byte of a four-byte sequence (`0xF0` narrows to
`0x90..=0xBF`, `0xF4` to `0x80..=0x8F`). -/
def utf8Valid4Second (b c : Nat) : Bool :=
  if b = 0xF0 then decide (0x90 ≤ c ∧ c ≤ 0xBF)
  else if b = 0xF4 then decide (0x80 ≤ c ∧ c ≤ 0x8F)
  else isUtf8Cont c

/-- The UTF-8 validation loop of `core::str::from_utf8`, with `i` the index of
the start of the sequence currently examined.  Mirrors
`core::str::validations::run_utf8_validation`: reaching the end of input
mid-sequence yields `error_len = none`; a byte outside its admissible range
yields `error_len = some k` with `k` the bytes of the invalid prefix. -/
def utf8Go : Nat → List Nat → Utf8Result
  | _, [] => .ok
  | i, b :: rest =>
    if b < 0x80 then utf8Go (i + 1) rest
    else if b < 0xC2 then .err i (some 1)
    else if b < 0xE0 then
      match rest with
      | [] => .err i none
      | c :: r2 => if isUtf8Cont c then utf8Go (i + 2) r2 else .err i (some 1)
    else if b < 0xF0 then
      match rest with
      | [] => .err i none
      | c :: r2 =>
        if utf8Valid3Second b c then
          match r2 with
          | [] => .err i none
          | d :: r3 => if isUtf8Cont d then utf8Go (i + 3) r3 else .err i (some 2)
        else .err i (some 1)
    else if b ≤ 0xF4 then
      match rest with
      | [] => .err i none
      | c :: r2 =>
        if utf8Valid4Second b c then
          match r2 with
          | [] => .err i none
          | d :: r3 =>
            if isUtf8Cont d then
              match r3 with
              | [] => .err i none
              | x :: r4 => if isUtf8Cont x then utf8Go (i + 4) r4 else .err i (some 3)
            else .err i (some 2)
        else .err i (some 1)
    else .err i (some 1)

/-- `core::str::from_utf8` on the byte contents. -/
def validateUtf8 (l : List Nat) : Utf8Result := utf8Go 0 l

/-- Modelled from the spec: `util::utf8::char_len` (src/util.rs is not among
the provided sources).  The byte length of the UTF-8 code point whose leading
byte is `byte`, derived from the leading byte's high bits, as the spec's
"leading-byte-derived table"; for malformed leading bytes the value is a
heuristic, preserved as-is per the spec's open question. -/
def charLen (byte : Nat) : Nat :=
  if byte < 0x80 then 1
  else if byte < 0xE0 then 2
  else if byte < 0xF0 then 3
  else 4

/-- The context carried by the two terminal error kinds
(`error::ExpectedContext`, a sealed operation/expected pair). -/
structure ExpectedContext where
  operation : String
  expected : String
deriving DecidableEq, Repr

/-- The insufficient-bytes terminal error kind (`error::ExpectedLength`):
the length was expected to be at least `min` (and at most `max`, when
present) in the context; carries the offending span and the `Input` active
when the error occurred. -/
structure ExpectedLength where
  min : Nat
  max : Option Nat
  span : Slice
  input : Input
  context : ExpectedContext
deriving DecidableEq, Repr

/-- The invalid-bytes terminal error kind (`error::ExpectedValid`); its
`retry_requirement` is an optional minimum extra byte requirement. -/
structure ExpectedValid where
  span : Slice
  input : Input
  context : ExpectedContext
  retry_requirement : Option Nat
deriving DecidableEq, Repr

/-- A concrete error type admitting both terminal kinds, standing for the
type parameter `E` with `From<ExpectedLength>` and `From<ExpectedValid>`. -/
inductive Error where
  | length (e : ExpectedLength)
  | valid (e : ExpectedValid)
deriving DecidableEq, Repr

/-- The span carried by an error. -/
def Error.errSpan : Error → Slice
  | .length e => e.span
  | .valid e => e.span

/-- The `Input` carried by an error. -/
def Error.errInput : Error → Input
  | .length e => e.input
  | .valid e => e.input

/-- `Input::to_dangerous_non_empty`: the underlying byte slice if it is not
empty, else an `ExpectedLength` error. -/
def Input.to_dangerous_non_empty (inp : Input) : Except Error Slice :=
  if inp.is_empty then
    .error (.length
      { min := 1, max := none, span := inp.as_dangerous, input := inp,
        context := ⟨"convert input to non-empty slice", "non-empty input"⟩ })
  else
    .ok inp.as_dangerous

/-- `Input::to_dangerous_str`: UTF-8 decode of the underlying byte slice with
exact failure classification, mirroring the `str::from_utf8` match in the
source: `error_len() == None` (valid prefix, incomplete trailing code point)
gives `ExpectedLength` with `min = utf8::char_len(invalid[0])` over the
undecoded tail; `error_len() == Some(k)` gives `ExpectedValid` over exactly
the reported invalid range, never retryable. -/
def Input.to_dangerous_str (inp : Input) : Except Error Slice :=
  match validateUtf8 inp.as_dangerous.data with
  | .ok => .ok inp.as_dangerous
  | .err v none =>
    .error (.length
      { min := charLen ((inp.as_dangerous.data.drop v).getD 0 0),
        max := none,
        span := inp.as_dangerous.dropBytes v,
        input := inp,
        context := ⟨"convert input to str", "complete utf-8 code point"⟩ })
  | .err v (some k) =>
    .error (.valid
      { span := inp.as_dangerous.extract v (v + k),
        input := inp,
        context := ⟨"convert input to str", "utf-8 code point"⟩,
        retry_requirement := none })

/-- `Input::to_dangerous_non_empty_str`: as `to_dangerous_str`, with empty
input its own `ExpectedLength` case. -/
def Input.to_dangerous_non_empty_str (inp : Input) : Except Error Slice :=
  if inp.is_empty then
    .error (.length
      { min := 1, max := none, span := inp.as_dangerous, input := inp,
        context := ⟨"convert input to non-empty str", "non empty input"⟩ })
  else
    inp.to_dangerous_str

theorem utf8Go_err_le : ∀ i l v el, utf8Go i l = .err v el → i ≤ v ∧ v - i < l.length := by
  intro i l
  induction i, l using utf8Go.induct <;> intro v el h <;> rw [utf8Go.eq_def] at h <;>
    simp only [*, if_true, if_false, List.length_cons] at h <;>
    first
      | exact Utf8Result.noConfusion h
      | (injection h with h1 h2; subst h1; simp only [List.length_cons, List.length_nil]; omega)
      | (rename_i ih; have hih := ih v el h; simp only [List.length_cons]; omega)
theorem utf8Go_err_none_ex : ∀ i l v, utf8Go i l = .err v none →
    ∃ m, m < l.length ∧ v = i + m ∧ 1 ≤ l.length - m
      ∧ l.length - m < charLen (l.getD m 0) := by
  intro i l
  induction i, l using utf8Go.induct <;> intro v h <;> rw [utf8Go.eq_def] at h <;>
    (try simp only [*, if_true, if_false] at h) <;>
    first
      | exact Utf8Result.noConfusion h
      | (injection h with h1 h2; exact Option.noConfusion h2)
      | (injection h with h1 h2
         subst h1
         refine ⟨0, ?_, ?_, ?_, ?_⟩ <;>
           (try simp only [*, charLen, List.getD_cons_zero, List.length_cons, List.length_nil,
             if_true, if_false]) <;>
           omega)
      | (rename_i ih
         obtain ⟨m', h1, h2, h3, h4⟩ := ih v h
         first
           | exact ⟨m' + 1, by simp only [List.length_cons]; omega, by omega,
               by simp only [List.length_cons]; omega,
               by simp only [List.length_cons, List.getD_cons_succ]; omega⟩
           | exact ⟨m' + 2, by simp only [List.length_cons]; omega, by omega,
               by simp only [List.length_cons]; omega,
               by simp only [List.length_cons, List.getD_cons_succ]; omega⟩
           | exact ⟨m' + 3, by simp only [List.length_cons]; omega, by omega,
               by simp only [List.length_cons]; omega,
               by simp only [List.length_cons, List.getD_cons_succ]; omega⟩
           | exact ⟨m' + 4, by simp only [List.length_cons]; omega, by omega,
               by simp only [List.length_cons]; omega,
               by simp only [List.length_cons, List.getD_cons_succ]; omega⟩)

theorem getD_drop_zero (l : List Nat) (v : Nat) : (l.drop v).getD 0 0 = l.getD v 0 := by
  simp [List.getD, List.getElem?_drop]

/-- C1 (amended): on an input whose bytes are a valid UTF-8 prefix followed
by an incomplete trailing code point (`error_len = none`), `to_dangerous_str`
returns an `ExpectedLength` error whose `min` is the total byte length of the
code point determined by the leading byte of the incomplete sequence (the
leading-byte table `charLen`), whose `max` is `none` and whose span is
exactly the undecoded tail; the span is non-empty and strictly shorter than
`min`, so `min` exceeds the number of continuation bytes still required
(`min` minus the span length) by exactly the span length. -/
theorem claim_C1 (inp : Input) (v : Nat)
    (h : validateUtf8 inp.as_dangerous.data = .err v none) :
    inp.to_dangerous_str = .error (.length
      { min := charLen (inp.as_dangerous.data.getD v 0),
        max := none,
        span := inp.as_dangerous.dropBytes v,
        input := inp,
        context := ⟨"convert input to str", "complete utf-8 code point"⟩ })
    ∧ 1 ≤ (inp.as_dangerous.dropBytes v).data.length
    ∧ (inp.as_dangerous.dropBytes v).data.length
        < charLen (inp.as_dangerous.data.getD v 0) := by
  obtain ⟨m, hm1, hm2, hm3, hm4⟩ := utf8Go_err_none_ex 0 inp.as_dangerous.data v h
  have hmv : m = v := by omega
  subst hmv
  refine ⟨?_, ?_, ?_⟩
  · simp only [Input.to_dangerous_str, h]
    rw [getD_drop_zero]
  · simp only [Slice.dropBytes, List.length_drop]
    omega
  · simp only [Slice.dropBytes, List.length_drop]
    omega

/-- Counterexample to C1 as stated: over the bytes `[0x61, 0xC3]` (valid
prefix "a", then the leading byte of a two-byte code point with no
continuation), the error's `min` is 2 (the code point's total length per the
leading-byte table), while the number of continuation bytes still required to
complete the code point is 1 (the lead byte is already present in the span
`[0xC3]`), so `min` does not equal the continuation bytes still required. -/
theorem claim_C1_cex :
    Input.to_dangerous_str (input ⟨0, [0x61, 0xC3]⟩)
      = .error (.length
        { min := 2, max := none, span := ⟨1, [0xC3]⟩, input := input ⟨0, [0x61, 0xC3]⟩,
          context := ⟨"convert input to str", "complete utf-8 code point"⟩ })
    ∧ charLen 0xC3 - [0xC3].length = 1
    ∧ (2 : Nat) ≠ 1 := by
  refine ⟨rfl, by decide, by decide⟩

/-- Witness for C1 (amended) at the bytes `[0x61, 0xC3]`. -/
theorem claim_C1_witness :
    Input.to_dangerous_str (input ⟨0, [0x61, 0xC3]⟩)
      = .error (.length
        { min := charLen ((Slice.data ⟨0, [0x61, 0xC3]⟩).getD 1 0), max := none,
          span := Slice.dropBytes ⟨0, [0x61, 0xC3]⟩ 1, input := input ⟨0, [0x61, 0xC3]⟩,
          context := ⟨"convert input to str", "complete utf-8 code point"⟩ })
    ∧ 1 ≤ (Slice.dropBytes ⟨0, [0x61, 0xC3]⟩ 1).data.length
    ∧ (Slice.dropBytes ⟨0, [0x61, 0xC3]⟩ 1).data.length
        < charLen ((Slice.data ⟨0, [0x61, 0xC3]⟩).getD 1 0) :=
  claim_C1 (input ⟨0, [0x61, 0xC3]⟩) 1 rfl

/-- C3: on an input containing a structurally invalid UTF-8 byte sequence
(the decoder reports `error_len = some k` at `valid_up_to = v`),
`to_dangerous_str` returns an `ExpectedValid` error whose span is exactly
the minimal invalid byte range reported by the decoder
(`bytes[v .. v + k]`) and whose `retry_requirement` is `none`; moreover the
reported range starts inside the input. -/
theorem claim_C3 (inp : Input) (v k : Nat)
    (h : validateUtf8 inp.as_dangerous.data = .err v (some k)) :
    inp.to_dangerous_str = .error (.valid
      { span := inp.as_dangerous.extract v (v + k),
        input := inp,
        context := ⟨"convert input to str", "utf-8 code point"⟩,
        retry_requirement := none })
    ∧ v < inp.len := by
  constructor
  · simp only [Input.to_dangerous_str, h]
  · have hb := utf8Go_err_le 0 inp.as_dangerous.data v (some k) h
    simp only [Input.len]
    omega

/-- Witness for C3 at the bytes `[0x61, 0x80]` (a stray continuation byte):
the reported invalid range is exactly the byte `0x80` at offset 1 and the
error is not retryable. -/
theorem claim_C3_witness :
    (Input.to_dangerous_str (input ⟨0, [0x61, 0x80]⟩)
      = .error (.valid
        { span := Slice.extract ⟨0, [0x61, 0x80]⟩ 1 (1 + 1),
          input := input ⟨0, [0x61, 0x80]⟩,
          context := ⟨"convert input to str", "utf-8 code point"⟩,
          retry_requirement := none })
      ∧ 1 < (input ⟨0, [0x61, 0x80]⟩).len)
    ∧ Slice.extract ⟨0, [0x61, 0x80]⟩ 1 (1 + 1) = ⟨1, [0x80]⟩ := by
  exact ⟨claim_C3 (input ⟨0, [0x61, 0x80]⟩) 1 1 rfl, by decide⟩

/-- A context frame, one of the three `Context` implementations: a plain
`&'static str` description, a sealed `ExpectedContext`, or the internal
operation-only `OperationContext`. -/
inductive ContextFrame where
  | basic (s : String)
  | expected (c : ExpectedContext)
  | operation (s : String)
deriving DecidableEq, Repr

/-- The `Context::operation` capability of each frame shape (a plain string
frame's operation defaults to "read"). -/
def ContextFrame.operationOf : ContextFrame → String
  | .basic _ => "read"
  | .expected c => c.operation
  | .operation s => s

/-- The `Context::expected` capability of each frame shape (the
operation-only frame has none). -/
def ContextFrame.expectedOf : ContextFrame → Option String
  | .basic s => some s
  | .expected c => some c.expected
  | .operation _ => none

/-- Modelled from the spec: `Reader` (src/reader.rs is not among the provided
sources), the stateful cursor over an `Input`; its state is the remaining
input, repeatedly narrowed by the routine it drives. -/
structure Reader where
  input : Input
deriving DecidableEq, Repr

/-- Modelled from the spec: `Reader::new`, opening a cursor over the whole
input. -/
def Reader.new (i : Input) : Reader := ⟨i⟩

/-- Modelled from the spec: `Reader::at_end`, the cursor completion query. -/
def Reader.at_end (r : Reader) : Bool := r.input.is_empty

/-- Modelled from the spec: `Reader::take_remaining`, returning all input
left in the cursor. -/
def Reader.take_remaining (r : Reader) : Input := r.input

/-- A routine driven by a `Reader`: Rust's `FnOnce(&mut Reader) -> Result<T, E>`
in state-passing form, returning the value together with the mutated cursor. -/
def Routine (T : Type) : Type := Reader → Except Error (T × Reader)

/-- Modelled from the spec: `Reader::context` runs the routine and, on error,
ensures the frame is represented in the stack attached to the propagating
error before re-raising; the stack-attachment step (`FromContext`) lives in
the missing error module and is abstracted as the decoration function
`dec`.  On success nothing further happens. -/
def Reader.context {T : Type} (dec : ContextFrame → Error → Error)
    (frame : ContextFrame) (f : Routine T) (r : Reader) : Except Error (T × Reader) :=
  match f r with
  | .ok x => .ok x
  | .error e => .error (dec frame e)

/-- `Input::read_all`: opens a reader, runs the routine under a "read all"
operation frame; if the routine succeeds but the cursor is not at the end,
fails with the `ExpectedLength` "no trailing input" error (`min = 0`,
`max = some 0`) spanning the leftover bytes; a routine error propagates. -/
def Input.read_all {T : Type} (dec : ContextFrame → Error → Error)
    (f : Routine T) (inp : Input) : Except Error T :=
  match Reader.context dec (.operation "read all") f (Reader.new inp) with
  | .ok (ok, r) =>
    if r.at_end then .ok ok
    else
      .error (.length
        { min := 0, max := some 0, span := r.take_remaining.as_dangerous, input := inp,
          context := ⟨"read all", "no trailing input"⟩ })
  | .error e => .error e

/-- `Input::read_partial` (named `readPartial` here): opens a reader, runs
the routine under a "read partial" operation frame, and returns its result
together with whatever input remains. -/
def Input.readPartial {T : Type} (dec : ContextFrame → Error → Error)
    (f : Routine T) (inp : Input) : Except Error (T × Input) :=
  match Reader.context dec (.operation "read partial") f (Reader.new inp) with
  | .ok (ok, r) => .ok (ok, r.take_remaining)
  | .error e => .error e

/-- C2: for every input and routine, if the routine succeeds but unread
bytes remain, `read_all` fails with the `ExpectedLength` error
(`min = 0`, `max = some 0`, span = the leftover bytes, operation
"read all", expected "no trailing input"), while `read_partial` on the same
input and routine succeeds, returning the routine's result together with the
leftover bytes as an `Input`. -/
theorem claim_C2 {T : Type} (dec : ContextFrame → Error → Error) (f : Routine T)
    (inp : Input) (t : T) (r2 : Reader)
    (hf : f (Reader.new inp) = .ok (t, r2))
    (hne : r2.input.is_empty = false) :
    inp.read_all dec f = .error (.length
      { min := 0, max := some 0, span := r2.take_remaining.as_dangerous, input := inp,
        context := ⟨"read all", "no trailing input"⟩ })
    ∧ inp.readPartial dec f = .ok (t, r2.take_remaining) := by
  constructor
  · simp only [Input.read_all, Reader.context, hf, Reader.at_end, hne, Bool.false_eq_true,
      if_false]
  · simp only [Input.readPartial, Reader.context, hf]

/-- A concrete routine consuming exactly one byte of its cursor. -/
def takeOne : Routine Unit := fun r =>
  .ok ((), ⟨⟨r.input.bytes.dropBytes 1, r.input.bound⟩⟩)

/-- Witness for C2, the claim's particular instance: over the bytes "ab"
(`[0x61, 0x62]`) with a routine consuming only "a", `read_all` fails with
the "no trailing input" error whose span is exactly "b" (`[0x62]` at
offset 1), while `read_partial` succeeds returning the leftover "b". -/
theorem claim_C2_witness :
    (input ⟨0, [0x61, 0x62]⟩).read_all (fun _ e => e) takeOne
      = .error (.length
        { min := 0, max := some 0, span := ⟨1, [0x62]⟩, input := input ⟨0, [0x61, 0x62]⟩,
          context := ⟨"read all", "no trailing input"⟩ })
    ∧ (input ⟨0, [0x61, 0x62]⟩).readPartial (fun _ e => e) takeOne
      = .ok ((), ⟨⟨1, [0x62]⟩, false⟩) :=
  claim_C2 (fun _ e => e) takeOne (input ⟨0, [0x61, 0x62]⟩) ()
    ⟨⟨⟨1, [0x62]⟩, false⟩⟩ rfl rfl

theorem sliceSpanOf_isSome {c p : Slice} (h : is_sub_slice p c = true) :
    (sliceSpanOf c p).isSome = true := by
  simp [sliceSpanOf, h]

theorem to_dangerous_str_err_span (inp : Input) :
    ∀ e, inp.to_dangerous_str = .error e →
      (sliceSpanOf e.errSpan e.errInput.as_dangerous).isSome = true := by
  intro e he
  simp only [Input.to_dangerous_str] at he
  cases hval : validateUtf8 inp.as_dangerous.data with
  | ok => rw [hval] at he; exact Except.noConfusion he
  | err v el =>
    rw [hval] at he
    cases el with
    | none =>
      simp only at he
      injection he with he1
      subst he1
      apply sliceSpanOf_isSome
      have hb := utf8Go_err_le 0 inp.as_dangerous.data v none hval
      simp only [Input.as_dangerous] at hb
      simp only [Error.errSpan, Error.errInput, Input.as_dangerous, Slice.dropBytes,
        is_sub_slice, Slice.start, Slice.stop, List.length_drop, decide_eq_true_eq]
      omega
    | some k =>
      simp only at he
      injection he with he1
      subst he1
      apply sliceSpanOf_isSome
      have hb := utf8Go_err_le 0 inp.as_dangerous.data v (some k) hval
      simp only [Input.as_dangerous] at hb
      simp only [Error.errSpan, Error.errInput, Input.as_dangerous, Slice.extract,
        is_sub_slice, Slice.start, Slice.stop, List.length_take, List.length_drop,
        decide_eq_true_eq]
      omega

/-- C10: every error constructed by `Input`'s own operations
(`to_dangerous_non_empty`, `to_dangerous_str`, `to_dangerous_non_empty_str`,
and `read_all`'s own trailing-input error) carries a span lying within the
byte range of the `Input` it also carries, so `span_of` of the error span
against the carried input always succeeds.  For `read_all` the routine is
assumed to narrow the cursor within the original input, as the spec's
`Reader` contract states. -/
theorem claim_C10 (inp : Input) :
    (∀ e, inp.to_dangerous_non_empty = .error e →
      (sliceSpanOf e.errSpan e.errInput.as_dangerous).isSome = true)
    ∧ (∀ e, inp.to_dangerous_str = .error e →
      (sliceSpanOf e.errSpan e.errInput.as_dangerous).isSome = true)
    ∧ (∀ e, inp.to_dangerous_non_empty_str = .error e →
      (sliceSpanOf e.errSpan e.errInput.as_dangerous).isSome = true)
    ∧ (∀ (T : Type) (dec : ContextFrame → Error → Error) (f : Routine T) (t : T) (r2 : Reader),
        f (Reader.new inp) = .ok (t, r2) →
        r2.take_remaining.is_within inp = true →
        ∀ e, inp.read_all dec f = .error e →
          (sliceSpanOf e.errSpan e.errInput.as_dangerous).isSome = true) := by
  have hself : is_sub_slice inp.as_dangerous inp.as_dangerous = true := by
    simp [is_sub_slice]
  refine ⟨?_, to_dangerous_str_err_span inp, ?_, ?_⟩
  · intro e he
    simp only [Input.to_dangerous_non_empty] at he
    split at he
    · injection he with he1
      subst he1
      exact sliceSpanOf_isSome hself
    · exact Except.noConfusion he
  · intro e he
    simp only [Input.to_dangerous_non_empty_str] at he
    split at he
    · injection he with he1
      subst he1
      exact sliceSpanOf_isSome hself
    · exact to_dangerous_str_err_span inp e he
  · intro T dec f t r2 hf hwithin e he
    simp only [Input.read_all, Reader.context, hf] at he
    split at he
    · exact Except.noConfusion he
    · injection he with he1
      subst he1
      apply sliceSpanOf_isSome
      simpa only [Input.is_within, Input.as_dangerous, Reader.take_remaining] using hwithin

/-- Witness for C10, applying the invariant to a concrete error of each of
the four operations: the empty input for `to_dangerous_non_empty`, the
truncated bytes `[0xC3]` for the two decoders, and the bytes "ab" with a
one-byte routine for `read_all`'s trailing-input error. -/
theorem claim_C10_witness :
    (sliceSpanOf
      (Error.errSpan (.length
        { min := 1, max := none, span := ⟨0, []⟩, input := input ⟨0, []⟩,
          context := ⟨"convert input to non-empty slice", "non-empty input"⟩ }))
      (Error.errInput (.length
        { min := 1, max := none, span := ⟨0, []⟩, input := input ⟨0, []⟩,
          context := ⟨"convert input to non-empty slice", "non-empty input"⟩ })).as_dangerous).isSome
      = true
    ∧ (sliceSpanOf
      (Error.errSpan (.length
        { min := 2, max := none, span := ⟨0, [0xC3]⟩, input := input ⟨0, [0xC3]⟩,
          context := ⟨"convert input to str", "complete utf-8 code point"⟩ }))
      (Error.errInput (.length
        { min := 2, max := none, span := ⟨0, [0xC3]⟩, input := input ⟨0, [0xC3]⟩,
          context := ⟨"convert input to str", "complete utf-8 code point"⟩ })).as_dangerous).isSome
      = true
    ∧ (sliceSpanOf
      (Error.errSpan (.length
        { min := 0, max := some 0, span := ⟨1, [0x62]⟩, input := input ⟨0, [0x61, 0x62]⟩,
          context := ⟨"read all", "no trailing input"⟩ }))
      (Error.errInput (.length
        { min := 0, max := some 0, span := ⟨1, [0x62]⟩, input := input ⟨0, [0x61, 0x62]⟩,
          context := ⟨"read all", "no trailing input"⟩ })).as_dangerous).isSome
      = true := by
  refine ⟨(claim_C10 (input ⟨0, []⟩)).1 _ rfl, ?_, ?_⟩
  · exact (claim_C10 (input ⟨0, [0xC3]⟩)).2.1 _ rfl
  · exact (claim_C10 (input ⟨0, [0x61, 0x62]⟩)).2.2.2 Unit (fun _ e => e) takeOne ()
      ⟨⟨⟨1, [0x62]⟩, false⟩⟩ rfl rfl _ rfl

/-- A stack-walking visitor (`ContextStackWalker`): Rust's stateful `FnMut`
in state-passing form, returning the new state and whether to continue. -/
def Visitor (σ : Type) : Type := σ → Nat → ContextFrame → σ × Bool

/-- `RootContextStack`: retains only the root `ExpectedContext`. -/
structure RootContextStack where
  context : ExpectedContext
deriving DecidableEq, Repr

/-- `RootContextStack::from_root`. -/
def RootContextStack.from_root (c : ExpectedContext) : RootContextStack := ⟨c⟩

/-- `RootContextStack::push`: ignores the pushed context entirely. -/
def RootContextStack.push (s : RootContextStack) (_c : ContextFrame) : RootContextStack := s

/-- `RootContextStack::walk`: invokes the visitor once, at index 1, with the
root context. -/
def RootContextStack.walk {σ : Type} (s : RootContextStack) (f : Visitor σ) (st : σ) :
    σ × Bool :=
  f st 1 (.expected s.context)

/-- Push a whole list of frames in order (a sequence of nested `context`
calls). -/
def RootContextStack.pushList (s : RootContextStack) (l : List ContextFrame) :
    RootContextStack :=
  l.foldl (fun acc c => acc.push c) s

/-- `FullContextStack`: the root plus a growable ordered collection of every
pushed frame, most-recent-last internally (the `Vec::with_capacity(32)`
hint has no observable effect). -/
structure FullContextStack where
  root : ExpectedContext
  stack : List ContextFrame
deriving DecidableEq, Repr

/-- `FullContextStack::from_root`. -/
def FullContextStack.from_root (c : ExpectedContext) : FullContextStack := ⟨c, []⟩

/-- `FullContextStack::push`: appends the frame. -/
def FullContextStack.push (s : FullContextStack) (c : ContextFrame) : FullContextStack :=
  ⟨s.root, s.stack ++ [c]⟩

/-- Push a whole list of frames in order. -/
def FullContextStack.pushList (s : FullContextStack) (l : List ContextFrame) :
    FullContextStack :=
  l.foldl (fun acc c => acc.push c) s

/-- The loop of `FullContextStack::walk`: visits the reversed stack with an
incrementing index, returning early with `false` when the visitor declines
to continue, and finally delivers the root. -/
def fullWalkGo {σ : Type} (f : Visitor σ) (root : ExpectedContext) :
    Nat → List ContextFrame → σ → σ × Bool
  | i, [], st => f st i (.expected root)
  | i, c :: rest, st =>
    let r := f st i c
    if r.2 then fullWalkGo f root (i + 1) rest r.1 else (r.1, false)

/-- `FullContextStack::walk`: iterates the pushed frames most-recent-first
(`stack.iter().rev()`) starting at index 1, then the root. -/
def FullContextStack.walk {σ : Type} (s : FullContextStack) (f : Visitor σ) (st : σ) :
    σ × Bool :=
  fullWalkGo f s.root 1 s.stack.reverse st

/-- A visitor that logs every invocation it receives into its state and
answers with the pure decision function `g`. -/
def logVis (g : Nat → ContextFrame → Bool) : Visitor (List (Nat × ContextFrame)) :=
  fun st i c => (st ++ [(i, c)], g i c)

theorem rootPushList_eq (s : RootContextStack) (l : List ContextFrame) :
    s.pushList l = s := by
  induction l generalizing s with
  | nil => rfl
  | cons c rest ih => exact ih s

theorem fullPushList_stack (s : FullContextStack) (l : List ContextFrame) :
    (s.pushList l).root = s.root ∧ (s.pushList l).stack = s.stack ++ l := by
  induction l generalizing s with
  | nil => simp [FullContextStack.pushList]
  | cons c rest ih =>
    have h := ih (s.push c)
    simpa [FullContextStack.pushList, FullContextStack.push, List.foldl_cons] using h

theorem fullWalkGo_log (g : Nat → ContextFrame → Bool) (hg : ∀ i c, g i c = true)
    (root : ExpectedContext) :
    ∀ (l : List ContextFrame) (i : Nat) (acc : List (Nat × ContextFrame)),
      fullWalkGo (logVis g) root i l acc
        = (acc ++ l.enumFrom i ++ [(i + l.length, .expected root)], g (i + l.length) (.expected root)) := by
  intro l
  induction l with
  | nil => intro i acc; simp [fullWalkGo, logVis]
  | cons c rest ih =>
    intro i acc
    simp only [fullWalkGo, logVis, hg, if_true, ih, List.enumFrom, List.length_cons]
    rw [show i + 1 + rest.length = i + (rest.length + 1) from by omega]
    simp

/-- C6: a Root-only stack's `walk` invokes the visitor exactly once, at
index 1, with the root frame, no matter how many frames were pushed
(`push` is a no-op); a Full stack's `walk` under a visitor that never stops
invokes the visitor once per pushed frame plus once for the root, starting
at index 1 with the most recently pushed frame, in reverse push order,
delivering the root last. -/
theorem claim_C6 (root : ExpectedContext) (frames : List ContextFrame)
    (g : Nat → ContextFrame → Bool) (hg : ∀ i c, g i c = true) :
    (∀ (s : RootContextStack) (c : ContextFrame), s.push c = s)
    ∧ ((RootContextStack.from_root root |>.pushList frames).walk (logVis g) []).1
        = [(1, ContextFrame.expected root)]
    ∧ ((FullContextStack.from_root root |>.pushList frames).walk (logVis g) []).1
        = frames.reverse.enumFrom 1 ++ [(frames.length + 1, ContextFrame.expected root)] := by
  refine ⟨fun s c => rfl, ?_, ?_⟩
  · rw [rootPushList_eq]
    simp [RootContextStack.walk, RootContextStack.from_root, logVis]
  · have hst := fullPushList_stack (FullContextStack.from_root root) frames
    simp only [FullContextStack.walk, hst.1, hst.2]
    simp only [FullContextStack.from_root, List.nil_append]
    rw [fullWalkGo_log g hg]
    simp [List.length_reverse, Nat.add_comm]

/-- Witness for C6 at a concrete root and two pushed frames with the
always-continue visitor. -/
theorem claim_C6_witness :
    ((RootContextStack.from_root ⟨"op", "exp"⟩ |>.pushList
        [ContextFrame.basic "a", ContextFrame.operation "b"]).walk
        (logVis fun _ _ => true) []).1
      = [(1, ContextFrame.expected ⟨"op", "exp"⟩)]
    ∧ ((FullContextStack.from_root ⟨"op", "exp"⟩ |>.pushList
        [ContextFrame.basic "a", ContextFrame.operation "b"]).walk
        (logVis fun _ _ => true) []).1
      = [(1, ContextFrame.operation "b"), (2, ContextFrame.basic "a"),
         (3, ContextFrame.expected ⟨"op", "exp"⟩)] := by
  have h := claim_C6 ⟨"op", "exp"⟩ [ContextFrame.basic "a", ContextFrame.operation "b"]
    (fun _ _ => true) (fun _ _ => rfl)
  refine ⟨h.2.1, ?_⟩
  rw [h.2.2]
  rfl

theorem fullWalkGo_true_iff (g : Nat → ContextFrame → Bool) (root : ExpectedContext) :
    ∀ (l : List ContextFrame) (i : Nat) (acc : List (Nat × ContextFrame)),
      (fullWalkGo (logVis g) root i l acc).2 = true
        ↔ ∀ p ∈ l.enumFrom i ++ [(i + l.length, ContextFrame.expected root)],
            g p.1 p.2 = true := by
  intro l
  induction l with
  | nil =>
    intro i acc
    simp [fullWalkGo, logVis]
  | cons c rest ih =>
    intro i acc
    simp only [fullWalkGo, logVis, List.enumFrom, List.length_cons]
    cases hgc : g i c with
    | false =>
      simp only [Bool.false_eq_true, if_false, false_iff]
      intro hall
      have hc := hall (i, c) (by simp)
      simp only [hgc] at hc
      exact Bool.noConfusion hc
    | true =>
      simp only [if_true, ih]
      rw [show i + (rest.length + 1) = i + 1 + rest.length from by omega]
      constructor
      · intro h1 p hp
        simp only [List.cons_append, List.mem_cons] at hp
        rcases hp with rfl | hp
        · exact hgc
        · exact h1 p hp
      · intro h2 p hp
        exact h2 p (by simp only [List.cons_append, List.mem_cons]; right; exact hp)

/-- C7 (amended): for either stack policy and any visitor whose
continue/stop decision is a function `g` of the index and frame, `walk`
returns `true` iff the visitor answered `true` at every frame of the full
visit sequence; it returns `false` exactly when the visitor answered
`false` at some delivered frame — which, when that frame is the last one
(the root), happens even though every frame of the stack was delivered. -/
theorem claim_C7 (root : ExpectedContext) (frames : List ContextFrame)
    (g : Nat → ContextFrame → Bool) :
    (((FullContextStack.from_root root |>.pushList frames).walk (logVis g) []).2 = true
      ↔ ∀ p ∈ frames.reverse.enumFrom 1
            ++ [(frames.length + 1, ContextFrame.expected root)],
          g p.1 p.2 = true)
    ∧ ((RootContextStack.from_root root |>.pushList frames).walk (logVis g) []).2
        = g 1 (ContextFrame.expected root) := by
  constructor
  · have hst := fullPushList_stack (FullContextStack.from_root root) frames
    simp only [FullContextStack.walk, hst.1, hst.2]
    simp only [FullContextStack.from_root, List.nil_append]
    rw [fullWalkGo_true_iff g root]
    rw [show 1 + frames.reverse.length = frames.length + 1 from by
      simp [List.length_reverse, Nat.add_comm]]
  · rw [rootPushList_eq]
    rfl

/-- Counterexample to C7 as stated: a Root-only stack holds exactly one
frame (the root); walking it with a visitor that answers `false` delivers
that frame — the visit log contains the entire stack, so no early stop
occurred before all frames were delivered — and yet `walk` returns
`false`. -/
theorem claim_C7_cex :
    (RootContextStack.from_root ⟨"op", "exp"⟩).walk (logVis fun _ _ => false) []
      = ([(1, ContextFrame.expected ⟨"op", "exp"⟩)], false)
    ∧ ([(1, ContextFrame.expected ⟨"op", "exp"⟩)] : List (Nat × ContextFrame)).length = 1 :=
  ⟨rfl, rfl⟩

/-- The state of `display::writer::InputWriter`: underline mode, the full
buffer being displayed, and the optional highlighted span.  Output is
modelled as the list of characters written. -/
structure InputWriter where
  underline : Bool
  full : Slice
  span : Option Slice
deriving DecidableEq, Repr

/-- `has_more_before`: the section starts strictly after the full buffer. -/
def hasMoreBefore (bytes full : Slice) : Bool :=
  decide (bytes.start > full.start)

/-- `has_more_after`: the section ends strictly before the full buffer. -/
def hasMoreAfter (bytes full : Slice) : Bool :=
  decide (bytes.stop < full.stop)

/-- `is_span_start_within_section`. -/
def isSpanStartWithinSection (bytes : Slice) (span : Option Slice) : Bool :=
  match span with
  | none => false
  | some sp => decide (bytes.start ≤ sp.start ∧ bytes.stop ≥ sp.start)

/-- `is_section_start_within_span`. -/
def isSectionStartWithinSpan (bytes : Slice) (span : Option Slice) : Bool :=
  match span with
  | none => false
  | some sp => decide (bytes.start ≥ sp.start ∧ bytes.start ≤ sp.stop)

/-- `is_span_overlapping_end`. -/
def isSpanOverlappingEnd (bytes : Slice) (span : Option Slice) : Bool :=
  match span with
  | none => false
  | some sp => decide (bytes.stop < sp.stop)

/-- `is_span_overlapping_start`. -/
def isSpanOverlappingStart (bytes : Slice) (span : Option Slice) : Bool :=
  match span with
  | none => false
  | some sp => decide (bytes.start > sp.start)

/-- `is_span_pointing_to_start`: the span is empty and sits exactly at the
section's start address. -/
def isSpanPointingToStart (bytes : Slice) (span : Option Slice) : Bool :=
  match span with
  | none => false
  | some sp => decide (sp.data = [] ∧ bytes.start = sp.start)

/-- `is_span_pointing_to_end`: the span is empty and sits exactly at the
section's end address. -/
def isSpanPointingToEnd (bytes : Slice) (span : Option Slice) : Bool :=
  match span with
  | none => false
  | some sp => decide (sp.data = [] ∧ bytes.stop = sp.stop)

/-- `write_space`. -/
def writeSpace (n : Nat) : List Char := List.replicate n ' '

/-- `write_underline`. -/
def writeUnderline (n : Nat) : List Char := List.replicate n '^'

/-- `write_delim`: in underline mode one underline or blank column stands in
for the delimiter character. -/
def writeDelim (w : InputWriter) (delim : Char) (highlighted : Bool) : List Char :=
  if w.underline then
    if highlighted then writeUnderline 1 else writeSpace 1
  else [delim]

/-- `write_more`: the ".." elision marker, or its two-column underline/blank
stand-in in underline mode. -/
def writeMore (w : InputWriter) (highlight : Bool) : List Char :=
  if w.underline then
    if highlight then writeUnderline 2 else writeSpace 2
  else ['.', '.']

/-- `u8::is_ascii_graphic`. -/
def isAsciiGraphic (b : Nat) : Bool := decide (0x21 ≤ b ∧ b ≤ 0x7E)

/-- One lowercase hex digit. -/
def hexDigit (n : Nat) : Char :=
  if n < 10 then Char.ofNat (48 + n) else Char.ofNat (97 + (n - 10))

/-- The `{:0>2x}` rendering of a byte. -/
def hexByte (b : Nat) : List Char := [hexDigit (b / 16), hexDigit (b % 16)]

/-- `write_byte`: a quoted character (3 columns) for printable ASCII with
assistance on, else two hex digits (2 columns); in underline mode the same
column width as underline marks or blanks depending on whether the
remaining-slice start intersects the highlighted span. -/
def writeByte (w : InputWriter) (byte : Nat) (remaining : Slice) (showAscii : Bool) : List Char :=
  if showAscii && isAsciiGraphic byte then
    if w.underline then
      if isSectionStartWithinSpan remaining w.span then writeUnderline 3 else writeSpace 3
    else ['\''] ++ [Char.ofNat byte] ++ ['\'']
  else if w.underline then
    if isSectionStartWithinSpan remaining w.span then writeUnderline 2 else writeSpace 2
  else hexByte byte

/-- The loop of `write_bytes` over the second and later bytes: the enumerate
index `i` starts at 0 for the second byte, and the code passes `&bytes[i..]`
as the remaining slice (one byte earlier than the byte being written). -/
def writeBytesGo (w : InputWriter) (bytes : Slice) (showAscii : Bool) :
    Nat → List Nat → List Char
  | _, [] => []
  | i, b :: rest =>
    writeSpace 1 ++ writeByte w b (bytes.dropBytes i) showAscii
      ++ writeBytesGo w bytes showAscii (i + 1) rest

/-- `write_bytes`: first byte with the whole section as its remaining slice,
then one blank column before each further byte. -/
def writeBytes (w : InputWriter) (bytes : Slice) (showAscii : Bool) : List Char :=
  match bytes.data with
  | [] => []
  | b :: rest => writeByte w b bytes showAscii ++ writeBytesGo w bytes showAscii 0 rest

/-- `write_bytes_open`: elided sections get a never-highlighted delimiter,
an overlap-highlighted elision marker and a blank; otherwise the delimiter
is highlighted exactly when an empty span points at the section start. -/
def writeBytesOpen (w : InputWriter) (bytes : Slice) : List Char :=
  if hasMoreBefore bytes w.full then
    writeDelim w '[' false ++ writeMore w (isSpanOverlappingStart bytes w.span) ++ writeSpace 1
  else
    writeDelim w '[' (isSpanPointingToStart bytes w.span)

/-- `write_bytes_close`: symmetric to `write_bytes_open`. -/
def writeBytesClose (w : InputWriter) (bytes : Slice) : List Char :=
  if hasMoreAfter bytes w.full then
    writeSpace 1 ++ writeMore w (isSpanOverlappingEnd bytes w.span) ++ writeDelim w ']' false
  else
    writeDelim w ']' (isSpanPointingToEnd bytes w.span)

/-- `write_bytes_side`: open delimiter, body, close delimiter. -/
def writeBytesSide (w : InputWriter) (side : Slice) (showAscii : Bool) : List Char :=
  writeBytesOpen w side ++ writeBytes w side showAscii ++ writeBytesClose w side

/-- C8 (code evaluation at the failing input): rendering the bytes
`0x61 0x62 0x63` ("abc") with ASCII assistance produces `['a' 'b' 'c']`,
but in underline mode with the highlighted span covering only the middle
byte, the three-column marker lands under the `'c'` rendering (columns
9-11), not under the `'b'` rendering (columns 5-7): the loop of
`write_bytes` passes `&bytes[i..]` (one byte short) as the remaining slice
for the byte at index `i + 1`, shifting every underline one byte to the
right of the highlighted span. -/
theorem claim_C8 :
    writeBytesSide ⟨false, ⟨0, [0x61, 0x62, 0x63]⟩, some ⟨1, [0x62]⟩⟩
        ⟨0, [0x61, 0x62, 0x63]⟩ true
      = ['[', '\'', 'a', '\'', ' ', '\'', 'b', '\'', ' ', '\'', 'c', '\'', ']']
    ∧ writeBytesSide ⟨true, ⟨0, [0x61, 0x62, 0x63]⟩, some ⟨1, [0x62]⟩⟩
        ⟨0, [0x61, 0x62, 0x63]⟩ true
      = [' ', ' ', ' ', ' ', ' ', ' ', ' ', ' ', ' ', '^', '^', '^', ' '] := by
  constructor <;> rfl

theorem writeByte_blank (w : InputWriter) (b : Nat) (rem : Slice) (sa : Bool)
    (hu : w.underline = true) (h : isSectionStartWithinSpan rem w.span = false) :
    (writeByte w b rem sa).all (fun c => c == ' ') = true := by
  by_cases hg : (sa && isAsciiGraphic b) = true <;>
    simp [writeByte, hg, hu, h, writeSpace, List.all_eq_true, List.mem_replicate]

theorem writeBytesGo_blank (addr : Nat) (data : List Nat) (sa : Bool) :
    ∀ (l : List Nat) (i : Nat), i + l.length < data.length →
      (writeBytesGo ⟨true, ⟨addr, data⟩, some ⟨addr + data.length, []⟩⟩
          ⟨addr, data⟩ sa i l).all (fun c => c == ' ') = true := by
  intro l
  induction l with
  | nil => intro i h; rfl
  | cons b rest ih =>
    intro i h
    simp only [writeBytesGo, List.all_append, Bool.and_eq_true]
    refine ⟨⟨rfl, ?_⟩, ?_⟩
    · apply writeByte_blank _ _ _ _ rfl
      simp only [isSectionStartWithinSpan, Slice.dropBytes, Slice.start, Slice.stop,
        List.length_nil, decide_eq_false_iff_not, not_and]
      intro hge
      simp only [List.length_cons] at h
      omega
    · apply ih
      simp only [List.length_cons] at h
      omega

theorem writeBytes_end_span_blank (addr : Nat) (data : List Nat) (sa : Bool) :
    (writeBytes ⟨true, ⟨addr, data⟩, some ⟨addr + data.length, []⟩⟩
        ⟨addr, data⟩ sa).all (fun c => c == ' ') = true := by
  cases data with
  | nil => rfl
  | cons b rest =>
    simp only [writeBytes, List.all_append, Bool.and_eq_true]
    constructor
    · apply writeByte_blank _ _ _ _ rfl
      simp only [isSectionStartWithinSpan, Slice.start, Slice.stop, List.length_nil,
        List.length_cons, decide_eq_false_iff_not, not_and]
      intro hge
      omega
    · apply writeBytesGo_blank
      simp only [List.length_cons]
      omega

/-- C9 (amended): in underline mode a delimiter column is underlined iff the
highlighted span is zero-width, coincides exactly with that boundary of the
rendered section, and the section is not elided on that side (no elision
marker intervenes: the section's boundary is the full buffer's boundary); in
particular a zero-width span positioned exactly at the end of the buffer
highlights the closing delimiter and no byte column. -/
theorem claim_C9 :
    (∀ (full sec : Slice) (span : Option Slice),
      (writeBytesOpen ⟨true, full, span⟩ sec).head? = some '^'
        ↔ (hasMoreBefore sec full = false ∧ isSpanPointingToStart sec span = true))
    ∧ (∀ (full sec : Slice) (span : Option Slice),
      (writeBytesClose ⟨true, full, span⟩ sec).getLast? = some '^'
        ↔ (hasMoreAfter sec full = false ∧ isSpanPointingToEnd sec span = true))
    ∧ (∀ (addr : Nat) (data : List Nat) (sa : Bool),
      writeBytesClose ⟨true, ⟨addr, data⟩, some ⟨addr + data.length, []⟩⟩ ⟨addr, data⟩
          = ['^']
      ∧ (writeBytes ⟨true, ⟨addr, data⟩, some ⟨addr + data.length, []⟩⟩
          ⟨addr, data⟩ sa).all (fun c => c == ' ') = true) := by
  refine ⟨?_, ?_, ?_⟩
  · intro full sec span
    by_cases hb : hasMoreBefore sec full = true
    · simp [writeBytesOpen, hb, writeDelim, writeSpace]
    · rw [Bool.not_eq_true] at hb
      by_cases hp : isSpanPointingToStart sec span = true
      · simp [writeBytesOpen, hb, hp, writeDelim, writeUnderline]
      · rw [Bool.not_eq_true] at hp
        simp [writeBytesOpen, hb, hp, writeDelim, writeSpace]
  · intro full sec span
    by_cases hb : hasMoreAfter sec full = true
    · have : (writeBytesClose ⟨true, full, span⟩ sec).getLast? = some ' ' := by
        simp only [writeBytesClose, hb, if_true, writeDelim, if_false, Bool.false_eq_true,
          writeSpace]
        rw [show (List.replicate 1 ' '
            ++ writeMore ⟨true, full, span⟩ (isSpanOverlappingEnd sec span)
            ++ List.replicate 1 ' ')
          = (List.replicate 1 ' '
            ++ writeMore ⟨true, full, span⟩ (isSpanOverlappingEnd sec span))
            ++ [' '] from by simp]
        exact List.getLast?_concat _
      rw [this]
      simp [hb]
    · rw [Bool.not_eq_true] at hb
      by_cases hp : isSpanPointingToEnd sec span = true
      · simp [writeBytesClose, hb, hp, writeDelim, writeUnderline]
      · rw [Bool.not_eq_true] at hp
        simp [writeBytesClose, hb, hp, writeDelim, writeSpace]
  · intro addr data sa
    constructor
    · have h1 : hasMoreAfter ⟨addr, data⟩ ⟨addr, data⟩ = false := by
        simp [hasMoreAfter]
      have h2 : isSpanPointingToEnd ⟨addr, data⟩ (some ⟨addr + data.length, []⟩) = true := by
        simp [isSpanPointingToEnd, Slice.stop]
      simp [writeBytesClose, h1, h2, writeDelim, writeUnderline, List.replicate]
    · exact writeBytes_end_span_blank addr data sa

/-- Counterexample to C9 as stated: the section `[0xAA]` (the first byte of
the two-byte buffer at address 0) is elided on the right
(`has_more_after` holds), and the zero-width span at address 1 coincides
exactly with the section's end boundary (`is_span_pointing_to_end` is
true); yet the closing delimiter column of the rendered close is a blank,
not an underline — an elision marker suppresses delimiter highlighting. -/
theorem claim_C9_cex :
    isSpanPointingToEnd ⟨0, [0xAA]⟩ (some ⟨1, []⟩) = true
    ∧ hasMoreAfter ⟨0, [0xAA]⟩ ⟨0, [0xAA, 0xBB]⟩ = true
    ∧ writeBytesClose ⟨true, ⟨0, [0xAA, 0xBB]⟩, some ⟨1, []⟩⟩ ⟨0, [0xAA]⟩
        = [' ', ' ', ' ', ' '] := by
  refine ⟨by decide, by decide, rfl⟩
